import Mathlib

/-!
Shallow embedding of the schedulerx distributed cron scheduler
(github.com/yashkumarverma/schedulerx) and verification of the frozen
claims about it.

The embedding mirrors:
  * the `command` package: `Job`, `NewJob`, `Job.StoreInRedis`,
    `Job.UpdateInRedis`, `Job.Fail`;
  * the `leader` package: `PodInfo`, `cleanupDeadPods`, `GetLeader`,
    `IsLeader` (the version of `src/leader/index.go` cited by the claims,
    whose `PodInfo` carries a persisted `is_leader` flag);
  * the `assignment` package: `Assignment.AssignJobs`;
  * the `scheduler` package: `Scheduler.AssignJobs`,
    `Scheduler.ExecuteAssignedJobs`, and the materialization loop of
    `Scheduler.ScheduleJobs`.

The Redis keyspace touched by these functions is modelled by `RedisState`:
the pending sorted set `scheduler:jobs` as an association list from member
to score (the list order abstracts the ascending-score enumeration order
that ZRANGE returns; every claim below depends only on membership,
cardinality and the batch contents, never on cross-member order), the
per-job detail records, and the per-job SETNX locks.  Store operations
never fail in the model; the code paths that merely log-and-continue on a
store error therefore collapse to the success path.
-/

/-- A Go `time.Time` instant: whole seconds since the Unix epoch plus a
nanosecond offset.  `Unix()` returns the seconds field (the floor of the
instant in seconds), `Before` is the lexicographic strict order. -/
structure GoTime where
  sec : Int
  nsec : Nat
deriving DecidableEq, Repr

/-- Go `t.Unix()`: whole seconds since the epoch (floor). -/
def GoTime.unix (t : GoTime) : Int := t.sec

/-- Go `a.Before(b)`: strict lexicographic comparison on (sec, nsec). -/
def GoTime.before (a b : GoTime) : Bool :=
  a.sec < b.sec || (a.sec = b.sec && a.nsec < b.nsec)

/-- Go `a.Sub(b)` in nanoseconds. -/
def GoTime.subNs (a b : GoTime) : Int :=
  (a.sec - b.sec) * 1000000000 + (a.nsec : Int) - (b.nsec : Int)

/-- Go `t.Add(d)` for a whole number of seconds. -/
def GoTime.addSec (t : GoTime) (s : Int) : GoTime :=
  { t with sec := t.sec + s }

theorem GoTime.before_irrefl (t : GoTime) : t.before t = false := by
  simp [GoTime.before]

/-- Job status constants of the `command` package.  The files provided for
the `command` package declare `Scheduled`, `Running`, `Failed` and
`Success`; the `assignment` and `scheduler` packages additionally use
`command.Assigned` (the spec's linear state machine
`scheduled → assigned → running → (success | failed)`), so it is included
here. -/
inductive JobStatus where
  | scheduled
  | assigned
  | running
  | failed
  | success
deriving DecidableEq, Repr

/-- `command.Job`.  The provided `command` package file declares all fields
but `AssignedTo`; `AssignedTo` (pod id or empty) is the field the
`assignment` and `scheduler` packages read and write, as the spec's Job
shape records. -/
structure Job where
  ID : String
  CommandID : String
  Params : List String
  Status : JobStatus
  ScheduledAt : GoTime
  StartedAt : Option GoTime := none
  FinishedAt : Option GoTime := none
  Error : String := ""
  AssignedTo : String := ""
deriving DecidableEq, Repr

/-- `command.NewJob`: builds a job whose id is
`fmt.Sprintf("%s_%d", commandID, scheduledAt.Unix())`. -/
def NewJob (commandID : String) (params : List String) (scheduledAt : GoTime) : Job :=
  { ID := commandID ++ "_" ++ toString scheduledAt.unix
    CommandID := commandID
    Params := params
    Status := .scheduled
    ScheduledAt := scheduledAt }

/-- Association-list lookup (first entry with the given key). -/
def lookupAssoc {α : Type} (l : List (String × α)) (k : String) : Option α :=
  match l with
  | [] => none
  | (k', v) :: rest => if k' = k then some v else lookupAssoc rest k

/-- Association-list upsert: replaces the first entry with the given key,
or appends a fresh entry.  This is the model of both Redis `SET` on a
string key and `ZADD` on a sorted-set member. -/
def setAssoc {α : Type} (l : List (String × α)) (k : String) (v : α) : List (String × α) :=
  match l with
  | [] => [(k, v)]
  | (k', v') :: rest => if k' = k then (k, v) :: rest else (k', v') :: setAssoc rest k v

/-- Association-list removal of every entry with the given key (Redis
`DEL` / `ZREM`). -/
def removeAssoc {α : Type} (l : List (String × α)) (k : String) : List (String × α) :=
  l.filter (fun p => p.1 ≠ k)

/-- The Redis keyspace the scheduler core touches: the pending sorted set
`scheduler:jobs` (member ↦ score), the job detail records
`scheduler:job:...` (job id ↦ decoded record), and the execution locks
`schedulerx:job_lock:...` (job id ↦ stored pod id). -/
structure RedisState where
  jobSet : List (String × Int)
  details : List (String × Job)
  locks : List (String × String)
deriving DecidableEq, Repr

/-- `Job.StoreInRedis`: one pipeline doing
`SET scheduler:job:{id} detail EX 24h` and
`ZADD scheduler:jobs (scheduledAt.Unix()) id`. -/
def Job.StoreInRedis (j : Job) (st : RedisState) : RedisState :=
  { st with
    details := setAssoc st.details j.ID j
    jobSet := setAssoc st.jobSet j.ID j.ScheduledAt.unix }

/-- `Job.UpdateInRedis`: writes the detail record and, when the status is
terminal (`success` or `failed`), additionally `ZREM`s the job from the
pending sorted set. -/
def Job.UpdateInRedis (j : Job) (st : RedisState) : RedisState :=
  let st1 : RedisState := { st with details := setAssoc st.details j.ID j }
  if j.Status = .success || j.Status = .failed then
    { st1 with jobSet := removeAssoc st1.jobSet j.ID }
  else
    st1

/-- `Job.Fail`: marks the job failed, records the finish time, and when
the error is non-nil copies its message into `Job.Error`. -/
def Job.Fail (j : Job) (err : Option String) (now : GoTime) : Job :=
  { j with
    FinishedAt := some now
    Status := .failed
    Error := match err with
      | some msg => msg
      | none => j.Error }

/-- C1: the job id produced by the materializer is the concatenation of
the command id, an underscore, and the unix seconds of the scheduled
time, and it is a pure function of (command id, unix seconds): any two
jobs built for the same command id and times with equal unix seconds get
identical ids, whatever the parameters or sub-second offsets. -/
theorem job_id_deterministic (commandID : String) (params : List String) (t : GoTime) :
    (NewJob commandID params t).ID = commandID ++ "_" ++ toString t.unix ∧
    ∀ (params' : List String) (t' : GoTime), t'.unix = t.unix →
      (NewJob commandID params' t').ID = (NewJob commandID params t).ID := by
  constructor
  · rfl
  · intro params' t' h
    simp [NewJob, h]

/-- Witness for C1 at a concrete input: two replicas materializing the
`echo` command for two instants inside the same unix second produce the
same id `echo_100`. -/
theorem job_id_deterministic_witness :
    (NewJob "echo" ["Heartbeat check"] ⟨100, 900000000⟩).ID =
      (NewJob "echo" [] ⟨100, 5⟩).ID ∧
    (NewJob "echo" [] ⟨100, 5⟩).ID = "echo" ++ "_" ++ toString (100 : Int) :=
  ⟨(job_id_deterministic "echo" [] ⟨100, 5⟩).2 ["Heartbeat check"] ⟨100, 900000000⟩ rfl,
   (job_id_deterministic "echo" [] ⟨100, 5⟩).1⟩

/-! ### Association-list lemmas shared by the claims -/

theorem lookupAssoc_setAssoc_self {α : Type} (l : List (String × α)) (k : String) (v : α) :
    lookupAssoc (setAssoc l k v) k = some v := by
  induction l with
  | nil => simp [setAssoc, lookupAssoc]
  | cons p rest ih =>
    by_cases h : p.1 = k
    · simp [setAssoc, h, lookupAssoc]
    · simp [setAssoc, h, lookupAssoc, ih]

theorem lookupAssoc_setAssoc_ne {α : Type} (l : List (String × α)) (k k' : String) (v : α)
    (h : k' ≠ k) : lookupAssoc (setAssoc l k v) k' = lookupAssoc l k' := by
  induction l with
  | nil => simp [setAssoc, lookupAssoc, Ne.symm h]
  | cons p rest ih =>
    obtain ⟨a, b⟩ := p
    by_cases hp : a = k
    · subst hp
      simp [setAssoc, lookupAssoc, Ne.symm h]
    · simp only [setAssoc, if_neg hp]
      by_cases hp' : a = k'
      · simp [lookupAssoc, hp']
      · simp [lookupAssoc, hp', ih]

theorem keys_setAssoc {α : Type} (l : List (String × α)) (k : String) (v : α) :
    (setAssoc l k v).map Prod.fst =
      if k ∈ l.map Prod.fst then l.map Prod.fst else l.map Prod.fst ++ [k] := by
  induction l with
  | nil => simp [setAssoc]
  | cons p rest ih =>
    by_cases h : p.1 = k
    · simp [setAssoc, h]
    · have hne : k ≠ p.1 := fun h' => h h'.symm
      by_cases hk : k ∈ rest.map Prod.fst
      · simp [setAssoc, h, ih, hk, hne]
      · simp [setAssoc, h, ih, hk, hne]

theorem mem_keys_setAssoc_self {α : Type} (l : List (String × α)) (k : String) (v : α) :
    k ∈ (setAssoc l k v).map Prod.fst := by
  rw [keys_setAssoc]
  by_cases h : k ∈ l.map Prod.fst <;> simp [h]

theorem mem_keys_setAssoc_mono {α : Type} (l : List (String × α)) (k a : String) (v : α)
    (h : a ∈ l.map Prod.fst) : a ∈ (setAssoc l k v).map Prod.fst := by
  rw [keys_setAssoc]
  by_cases hk : k ∈ l.map Prod.fst <;> simp [hk, h]

theorem keys_setAssoc_of_mem {α : Type} (l : List (String × α)) (k : String) (v : α)
    (h : k ∈ l.map Prod.fst) : (setAssoc l k v).map Prod.fst = l.map Prod.fst := by
  rw [keys_setAssoc, if_pos h]

/-! ### Materializer (`Scheduler.ScheduleJobs` of `src/scheduler/scheduler.go`) -/

/-- `scheduler.SchedulingWindow = 5 * time.Minute`, in whole seconds. -/
def SchedulingWindow : Int := 5 * 60

/-- A registered command as the core sees it: an opaque id, default
parameters, and the cron oracle `NextAfter(t) → t'` obtained from parsing
its cron expression (the parser itself is outside the core per the spec's
scope; the scheduler only ever calls `schedule.Next`). -/
structure Command where
  id : String
  params : List String
  next : GoTime → GoTime

/-- The firing-time enumeration loop of `ScheduleJobs`:
`next := schedule.Next(now); for next.Before(endTime) { ...; next = schedule.Next(next) }`.
`fuel` bounds the number of oracle calls (the Go loop terminates because
cron oracles advance time; any fuel large enough gives the full list). -/
def enumTimes (next : GoTime → GoTime) (e : GoTime) : Nat → GoTime → List GoTime
  | 0, _ => []
  | fuel + 1, cur =>
    let n := next cur
    if n.before e then n :: enumTimes next e fuel n else []

/-- The k-th value produced by the cron oracle starting from `now`
(`iterFrom next now 0 = next now`). -/
def iterFrom (next : GoTime → GoTime) : GoTime → Nat → GoTime
  | cur, 0 => next cur
  | cur, k + 1 => iterFrom next (next cur) k

/-- One materializer tick: for every command, enumerate the firing times
in `[now, now + SchedulingWindow)` and store the corresponding jobs. -/
def materializeTick (cmds : List Command) (fuel : Nat) (now : GoTime) (st : RedisState) :
    RedisState :=
  cmds.foldl
    (fun s c =>
      ((enumTimes c.next (now.addSec SchedulingWindow) fuel now).map
          (fun t => NewJob c.id c.params t)).foldl
        (fun s' j => j.StoreInRedis s') s)
    st

/-- Members of the pending sorted set. -/
def pendingMembers (st : RedisState) : List String :=
  st.jobSet.map Prod.fst

theorem pendingMembers_store (j : Job) (st : RedisState) :
    pendingMembers (j.StoreInRedis st) =
      if j.ID ∈ pendingMembers st then pendingMembers st else pendingMembers st ++ [j.ID] := by
  simp [pendingMembers, Job.StoreInRedis, keys_setAssoc]

theorem pendingMembers_store_mono (j : Job) (st : RedisState) (a : String)
    (h : a ∈ pendingMembers st) : a ∈ pendingMembers (j.StoreInRedis st) := by
  rw [pendingMembers_store]
  by_cases hk : j.ID ∈ pendingMembers st <;> simp [hk, h]

theorem pendingMembers_store_self (j : Job) (st : RedisState) :
    j.ID ∈ pendingMembers (j.StoreInRedis st) := by
  rw [pendingMembers_store]
  by_cases hk : j.ID ∈ pendingMembers st <;> simp [hk]

theorem pendingMembers_storeFold_mono (l : List Job) (st : RedisState) (a : String)
    (h : a ∈ pendingMembers st) :
    a ∈ pendingMembers (l.foldl (fun s j => j.StoreInRedis s) st) := by
  induction l generalizing st with
  | nil => simpa using h
  | cons j rest ih => exact ih _ (pendingMembers_store_mono j st a h)

theorem pendingMembers_storeFold_self (l : List Job) (st : RedisState) (j : Job)
    (h : j ∈ l) : j.ID ∈ pendingMembers (l.foldl (fun s j => j.StoreInRedis s) st) := by
  induction l generalizing st with
  | nil => cases h
  | cons j0 rest ih =>
    rcases List.mem_cons.mp h with h0 | hrest
    · subst h0
      exact pendingMembers_storeFold_mono rest _ j.ID (pendingMembers_store_self j st)
    · exact ih _ hrest

theorem pendingMembers_storeFold_stable (l : List Job) (st : RedisState)
    (h : ∀ j ∈ l, j.ID ∈ pendingMembers st) :
    pendingMembers (l.foldl (fun s j => j.StoreInRedis s) st) = pendingMembers st := by
  induction l generalizing st with
  | nil => rfl
  | cons j rest ih =>
    have hj : j.ID ∈ pendingMembers st := h j (by simp)
    have hst : pendingMembers (j.StoreInRedis st) = pendingMembers st := by
      rw [pendingMembers_store, if_pos hj]
    rw [List.foldl_cons, ih _ (fun j' hj' => by rw [hst]; exact h j' (by simp [hj'])), hst]

theorem pendingMembers_materialize_mono (cmds : List Command) (fuel : Nat) (now : GoTime)
    (st : RedisState) (a : String) (h : a ∈ pendingMembers st) :
    a ∈ pendingMembers (materializeTick cmds fuel now st) := by
  induction cmds generalizing st with
  | nil => simpa [materializeTick] using h
  | cons c rest ih =>
    exact ih _ (pendingMembers_storeFold_mono _ st a h)

theorem pendingMembers_materialize_self (cmds : List Command) (fuel : Nat) (now : GoTime)
    (st : RedisState) (c : Command) (hc : c ∈ cmds) (t : GoTime)
    (ht : t ∈ enumTimes c.next (now.addSec SchedulingWindow) fuel now) :
    (NewJob c.id c.params t).ID ∈ pendingMembers (materializeTick cmds fuel now st) := by
  induction cmds generalizing st with
  | nil => cases hc
  | cons c0 rest ih =>
    rcases List.mem_cons.mp hc with h0 | hrest
    · subst h0
      exact pendingMembers_materialize_mono rest fuel now _ _
        (pendingMembers_storeFold_self _ st _ (List.mem_map_of_mem _ ht))
    · exact ih _ hrest

theorem pendingMembers_materialize_stable (cmds : List Command) (fuel : Nat) (now : GoTime)
    (st : RedisState)
    (h : ∀ c ∈ cmds, ∀ t ∈ enumTimes c.next (now.addSec SchedulingWindow) fuel now,
      (NewJob c.id c.params t).ID ∈ pendingMembers st) :
    pendingMembers (materializeTick cmds fuel now st) = pendingMembers st := by
  induction cmds generalizing st with
  | nil => rfl
  | cons c rest ih =>
    have hfold :
        pendingMembers
            (((enumTimes c.next (now.addSec SchedulingWindow) fuel now).map
              (fun t => NewJob c.id c.params t)).foldl (fun s' j => j.StoreInRedis s') st) =
          pendingMembers st := by
      apply pendingMembers_storeFold_stable
      intro j hj
      rcases List.mem_map.mp hj with ⟨t, ht, rfl⟩
      exact h c (by simp) t ht
    show pendingMembers (materializeTick rest fuel now _) = _
    rw [ih _ (fun c' hc' t ht => by rw [hfold]; exact h c' (by simp [hc']) t ht), hfold]

/-- C6: re-running the materializer over an unchanged command set and the
same scheduling window is idempotent on the pending sorted set: the
second run adds no new members (the member list, and hence the sorted-set
cardinality, is unchanged), because each job store is an upsert keyed by
the deterministic job id. -/
theorem materializer_idempotent (cmds : List Command) (fuel : Nat) (now : GoTime)
    (st : RedisState) :
    pendingMembers (materializeTick cmds fuel now (materializeTick cmds fuel now st)) =
      pendingMembers (materializeTick cmds fuel now st) ∧
    (materializeTick cmds fuel now (materializeTick cmds fuel now st)).jobSet.length =
      (materializeTick cmds fuel now st).jobSet.length := by
  have hkeys :
      pendingMembers (materializeTick cmds fuel now (materializeTick cmds fuel now st)) =
        pendingMembers (materializeTick cmds fuel now st) :=
    pendingMembers_materialize_stable cmds fuel now _
      (fun c hc t ht => pendingMembers_materialize_self cmds fuel now st c hc t ht)
  refine ⟨hkeys, ?_⟩
  have := congrArg List.length hkeys
  simpa [pendingMembers] using this

/-! ### C8: the scheduling window is strict at its right end -/

theorem enumTimes_all_before (next : GoTime → GoTime) (e : GoTime) (fuel : Nat)
    (cur : GoTime) : (enumTimes next e fuel cur).all (fun t => t.before e) = true := by
  induction fuel generalizing cur with
  | zero => rfl
  | succ fuel ih =>
    by_cases h : (next cur).before e
    · simp [enumTimes, h, ih]
    · simp [enumTimes, h]

theorem contains_eq_false_of_all_before (e : GoTime) (l : List GoTime)
    (hall : l.all (fun t => t.before e) = true) : l.contains e = false := by
  induction l with
  | nil => rfl
  | cons t rest ih =>
    simp only [List.all_cons, Bool.and_eq_true] at hall
    simp only [List.contains_cons, Bool.or_eq_false_iff]
    refine ⟨?_, ih hall.2⟩
    by_cases ht : e = t
    · subst ht
      rw [GoTime.before_irrefl] at hall
      exact absurd hall.1 (by simp)
    · simpa using ht

theorem enumTimes_not_contains_end (next : GoTime → GoTime) (e : GoTime) (fuel : Nat)
    (cur : GoTime) : (enumTimes next e fuel cur).contains e = false :=
  contains_eq_false_of_all_before e _ (enumTimes_all_before next e fuel cur)

theorem enumTimes_complete (next : GoTime → GoTime) (e : GoTime) :
    ∀ (k fuel : Nat) (cur : GoTime), k < fuel →
      (∀ m, m ≤ k → (iterFrom next cur m).before e = true) →
      iterFrom next cur k ∈ enumTimes next e fuel cur := by
  intro k
  induction k with
  | zero =>
    intro fuel cur hk h
    cases fuel with
    | zero => exact absurd hk (by omega)
    | succ fuel' =>
      have h0 := h 0 (Nat.le_refl 0)
      simp only [iterFrom] at h0 ⊢
      simp [enumTimes, h0]
  | succ k ih =>
    intro fuel cur hk h
    cases fuel with
    | zero => exact absurd hk (by omega)
    | succ fuel' =>
      have h0 := h 0 (Nat.zero_le _)
      simp only [iterFrom] at h0
      have hmem : iterFrom next (next cur) k ∈ enumTimes next e fuel' (next cur) := by
        apply ih fuel' (next cur) (by omega)
        intro m hm
        have := h (m + 1) (by omega)
        simpa [iterFrom] using this
      simp only [iterFrom]
      simp [enumTimes, h0]
      right
      exact hmem

/-- C8: every firing time the materializer enumerates for a command lies
strictly before `now + SchedulingWindow`; a firing time exactly equal to
the window end is never in the list; and conversely every oracle firing
time that (together with all its predecessors) lies strictly inside the
window is enumerated, fuel permitting. -/
theorem window_end_strict (next : GoTime → GoTime) (fuel : Nat) (now : GoTime) :
    (enumTimes next (now.addSec SchedulingWindow) fuel now).all
        (fun t => t.before (now.addSec SchedulingWindow)) = true ∧
    (enumTimes next (now.addSec SchedulingWindow) fuel now).contains
        (now.addSec SchedulingWindow) = false ∧
    ∀ k, k < fuel →
      (∀ m, m ≤ k → (iterFrom next now m).before (now.addSec SchedulingWindow) = true) →
      iterFrom next now k ∈ enumTimes next (now.addSec SchedulingWindow) fuel now :=
  ⟨enumTimes_all_before next _ fuel now,
   enumTimes_not_contains_end next _ fuel now,
   fun k hk h => enumTimes_complete next _ k fuel now hk h⟩

/-- Witness for C8 at a concrete input: an oracle firing every 60 s from
t = 0 with a 300 s window; the firing at t = 180 is enumerated and the
window end t = 300 is not. -/
theorem window_end_strict_witness :
    iterFrom (fun t => t.addSec 60) (⟨0, 0⟩ : GoTime) 2 ∈
      enumTimes (fun t => t.addSec 60)
        ((⟨0, 0⟩ : GoTime).addSec SchedulingWindow) 10 ⟨0, 0⟩ ∧
    (enumTimes (fun t => t.addSec 60)
        ((⟨0, 0⟩ : GoTime).addSec SchedulingWindow) 10 ⟨0, 0⟩).contains
      ((⟨0, 0⟩ : GoTime).addSec SchedulingWindow) = false :=
  ⟨(window_end_strict (fun t => t.addSec 60) 10 ⟨0, 0⟩).2.2 2 (by decide)
      (by decide),
   (window_end_strict (fun t => t.addSec 60) 10 ⟨0, 0⟩).2.1⟩

/-! ### Membership and leader election (`src/leader/index.go`, the version
whose `PodInfo` persists an `is_leader` flag, `podTTL = 5s`) -/

/-- `leader.PodInfo` as persisted under `schedulerx:pods`. -/
structure PodInfo where
  ID : String
  StartTime : GoTime
  LastSeen : GoTime
  Status : String := "active"
  IsLeader : Bool := false
deriving DecidableEq, Repr

/-- A snapshot of the `schedulerx:pods` map, in Go map iteration order
(Go randomizes this order; the embedding takes it as an input). -/
abbrev PodRegistry := List (String × PodInfo)

/-- `leader.podTTL = 5 * time.Second`, in nanoseconds. -/
def podTTLNs : Int := 5 * 1000000000

/-- `cleanupDeadPods`: keeps the pods with `now.Sub(info.LastSeen) <= podTTL`. -/
def cleanupDeadPods (now : GoTime) (pods : PodRegistry) : PodRegistry :=
  pods.filter (fun p => GoTime.subNs now p.2.LastSeen ≤ podTTLNs)

/-- Insert an `(id, startTime)` entry into an already sorted slice, after
every entry that starts strictly earlier and after entries with the same
start time.  Folding this over the slice is the stable insertion sort that
Go's `sort.Slice` performs for the slice lengths it insertion-sorts, with
the comparator `podSlice[i].startTime.Before(podSlice[j].startTime)`;
note the comparator looks at start times only. -/
def insertPod (x : String × GoTime) : List (String × GoTime) → List (String × GoTime)
  | [] => [x]
  | y :: ys => if y.2.before x.2 then y :: insertPod x ys else x :: y :: ys

/-- `sort.Slice(podSlice, ...)` by `startTime.Before`, as a stable
insertion sort. -/
def sortPods : List (String × GoTime) → List (String × GoTime)
  | [] => []
  | x :: xs => insertPod x (sortPods xs)

/-- `PodManager.GetLeader`: prune dead pods; with no live pod return the
empty string (the Go code returns `("", nil)` before any store write, so
no error is possible on that path); otherwise sort the live slice by
start time, take the first id, and write the live map back with refreshed
`is_leader` flags.  Returns the leader id and the written-back registry
value. -/
def GetLeader (now : GoTime) (pods : PodRegistry) : String × PodRegistry :=
  let live := cleanupDeadPods now pods
  if live.isEmpty then ("", pods)
  else
    let podSlice := live.map (fun p => (p.1, p.2.StartTime))
    let sorted := sortPods podSlice
    let leaderID := (sorted.headD ("", ⟨0, 0⟩)).1
    let updated := live.map (fun p => (p.1, { p.2 with IsLeader := p.1 == leaderID }))
    (leaderID, updated)

/-- The global `leader.GetLeader()` helper: the leader id, or the empty
string when the manager is unavailable (the pure model's store never
fails, so only the computed id remains). -/
def GetLeaderGlobal (now : GoTime) (pods : PodRegistry) : String :=
  (GetLeader now pods).1

/-- `PodManager.IsLeader`: reads the (unpruned) registry and returns the
persisted `is_leader` flag of the calling pod, or an error when the pod
is absent from the registry. -/
def IsLeaderCheck (pods : PodRegistry) (selfId : String) : Except String Bool :=
  match lookupAssoc pods selfId with
  | none => .error "pod not found in registry"
  | some info => .ok info.IsLeader

/-- The global `leader.IsLeader()` helper: `false` on any error, else the
result of `PodManager.IsLeader`. -/
def IsLeaderGlobal (pods : PodRegistry) (selfId : String) : Bool :=
  match IsLeaderCheck pods selfId with
  | .ok b => b
  | .error _ => false

theorem GoTime.before_asymm (a b : GoTime) (h : a.before b = true) : b.before a = false := by
  simp only [GoTime.before, Bool.or_eq_true, Bool.and_eq_true, decide_eq_true_eq,
    Bool.or_eq_false_iff, Bool.and_eq_false_iff, decide_eq_false_iff_not] at h ⊢
  omega

theorem GoTime.before_false_trans (a b c : GoTime) (hab : a.before b = false)
    (hbc : b.before c = false) : a.before c = false := by
  simp only [GoTime.before, Bool.or_eq_false_iff, Bool.and_eq_false_iff,
    decide_eq_false_iff_not] at hab hbc ⊢
  omega

theorem mem_insertPod (x y : String × GoTime) (l : List (String × GoTime)) :
    y ∈ insertPod x l ↔ y = x ∨ y ∈ l := by
  induction l with
  | nil => simp [insertPod]
  | cons z zs ih =>
    by_cases h : z.2.before x.2
    · simp only [insertPod, if_pos h, List.mem_cons, ih]
      tauto
    · simp only [insertPod, if_neg h, List.mem_cons]

theorem mem_sortPods (y : String × GoTime) (l : List (String × GoTime)) :
    y ∈ sortPods l ↔ y ∈ l := by
  induction l with
  | nil => simp [sortPods]
  | cons x xs ih => simp [sortPods, mem_insertPod, ih]

theorem length_insertPod (x : String × GoTime) (l : List (String × GoTime)) :
    (insertPod x l).length = l.length + 1 := by
  induction l with
  | nil => rfl
  | cons z zs ih =>
    by_cases h : z.2.before x.2 <;> simp [insertPod, h, ih]

theorem length_sortPods (l : List (String × GoTime)) :
    (sortPods l).length = l.length := by
  induction l with
  | nil => rfl
  | cons x xs ih => simp [sortPods, length_insertPod, ih]

/-- The head of the sorted pod slice starts no later than any slice entry. -/
theorem sortPods_head_min (l : List (String × GoTime)) (hd : String × GoTime)
    (tl : List (String × GoTime)) (hsort : sortPods l = hd :: tl) :
    ∀ x ∈ l, x.2.before hd.2 = false := by
  induction l generalizing hd tl with
  | nil => simp [sortPods] at hsort
  | cons a l' ih =>
    intro x hx
    cases hs : sortPods l' with
    | nil =>
      have hlen := length_sortPods l'
      rw [hs] at hlen
      have : l' = [] := List.length_eq_zero.mp hlen.symm
      subst this
      simp only [sortPods, insertPod] at hsort
      rcases List.mem_cons.mp hx with rfl | h'
      · cases hsort
        exact GoTime.before_irrefl _
      · cases h'
    | cons b tl' =>
      simp only [sortPods, hs, insertPod] at hsort
      by_cases hba : b.2.before a.2
      · rw [if_pos hba] at hsort
        obtain ⟨heq, -⟩ := List.cons.inj hsort
        rcases List.mem_cons.mp hx with rfl | h'
        · rw [← heq]
          exact GoTime.before_asymm _ _ hba
        · rw [← heq]
          exact ih b tl' hs x h'
      · rw [if_neg hba] at hsort
        obtain ⟨heq, -⟩ := List.cons.inj hsort
        have hba' : b.2.before a.2 = false := by
          simpa using hba
        rcases List.mem_cons.mp hx with rfl | h'
        · rw [← heq]
          exact GoTime.before_irrefl _
        · rw [← heq]
          exact GoTime.before_false_trans _ _ _ (ih b tl' hs x h') hba'

/-- C4 (amended): on a non-empty pruned live set, `GetLeader` is total and
returns the id of a live pod whose start time is minimal; when one live
pod starts strictly before every other, the result is exactly that pod,
independently of the snapshot enumeration order.  (Ties are NOT broken by
lexicographic id: the comparator consults start times only, so among
simultaneously started pods the map-iteration order decides.) -/
theorem leader_min_start (now : GoTime) (pods : PodRegistry)
    (h : cleanupDeadPods now pods ≠ []) :
    ∃ s : GoTime,
      ((GetLeader now pods).1, s) ∈
          (cleanupDeadPods now pods).map (fun p => (p.1, p.2.StartTime)) ∧
      (∀ q ∈ (cleanupDeadPods now pods).map (fun p => (p.1, p.2.StartTime)),
        q.2.before s = false) ∧
      ∀ p ∈ (cleanupDeadPods now pods).map (fun p => (p.1, p.2.StartTime)),
        (∀ q ∈ (cleanupDeadPods now pods).map (fun p => (p.1, p.2.StartTime)),
          q.1 ≠ p.1 → p.2.before q.2 = true) →
        (GetLeader now pods).1 = p.1 := by
  have hne : (cleanupDeadPods now pods).isEmpty = false := by
    cases hl : cleanupDeadPods now pods with
    | nil => exact absurd hl h
    | cons a t => rfl
  have hslice_ne :
      (cleanupDeadPods now pods).map (fun p => (p.1, p.2.StartTime)) ≠ [] := by
    intro hnil
    exact h (List.map_eq_nil_iff.mp hnil)
  cases hs : sortPods ((cleanupDeadPods now pods).map (fun p => (p.1, p.2.StartTime))) with
  | nil =>
    have hlen := length_sortPods ((cleanupDeadPods now pods).map (fun p => (p.1, p.2.StartTime)))
    rw [hs] at hlen
    exact absurd (List.length_eq_zero.mp hlen.symm) hslice_ne
  | cons hd tl =>
    have hleader : (GetLeader now pods).1 = hd.1 := by
      simp [GetLeader, hne, hs]
    have hhd_mem : hd ∈ (cleanupDeadPods now pods).map (fun p => (p.1, p.2.StartTime)) :=
      (mem_sortPods hd _).mp (by rw [hs]; simp)
    refine ⟨hd.2, ?_, ?_, ?_⟩
    · rw [hleader]
      simpa using hhd_mem
    · exact fun q hq => sortPods_head_min _ hd tl hs q hq
    · intro p hp hmin
      by_cases hdp : hd.1 = p.1
      · rw [hleader, hdp]
      · have h1 : p.2.before hd.2 = true := hmin hd hhd_mem hdp
        have h2 : p.2.before hd.2 = false := sortPods_head_min _ hd tl hs p hp
        rw [h1] at h2
        cases h2

/-- Witness for C4 at a concrete input: two live pods started at t = 0
and t = 5; the leader is the strictly earliest starter `a`. -/
theorem leader_min_start_witness :
    (GetLeader ⟨10, 0⟩
        [("a", ⟨"a", ⟨0, 0⟩, ⟨9, 0⟩, "active", false⟩),
         ("b", ⟨"b", ⟨5, 0⟩, ⟨9, 0⟩, "active", false⟩)]).1 = "a" := by
  obtain ⟨s, hmem, hmin, huniq⟩ :=
    leader_min_start ⟨10, 0⟩
      [("a", ⟨"a", ⟨0, 0⟩, ⟨9, 0⟩, "active", false⟩),
       ("b", ⟨"b", ⟨5, 0⟩, ⟨9, 0⟩, "active", false⟩)] (by decide)
  exact huniq ("a", ⟨0, 0⟩) (by decide) (by decide)

/-- Counterexample for C4 as stated: two live pods with identical start
times, enumerated as `b` then `a`.  The sort comparator never consults
ids, so `GetLeader` returns `b`, not the lexicographically smallest id
`a`; the result depends on the (randomized) map iteration order. -/
theorem leader_tie_not_lex :
    cleanupDeadPods ⟨10, 0⟩
        [("b", ⟨"b", ⟨5, 0⟩, ⟨9, 0⟩, "active", false⟩),
         ("a", ⟨"a", ⟨5, 0⟩, ⟨9, 0⟩, "active", false⟩)] =
      [("b", ⟨"b", ⟨5, 0⟩, ⟨9, 0⟩, "active", false⟩),
       ("a", ⟨"a", ⟨5, 0⟩, ⟨9, 0⟩, "active", false⟩)] ∧
    (GetLeader ⟨10, 0⟩
        [("b", ⟨"b", ⟨5, 0⟩, ⟨9, 0⟩, "active", false⟩),
         ("a", ⟨"a", ⟨5, 0⟩, ⟨9, 0⟩, "active", false⟩)]).1 = "b" ∧
    (("b" : String) = "a") = False := by
  refine ⟨by decide, by decide, by simp⟩

/-- C10 (amended): with an empty pruned live set `GetLeader` returns the
empty string (and the Go path returns `nil` error, reaching no store
write), so callers must treat `""` as "no leader exists"; but the
leadership check does not consult `GetLeader`: `IsLeader` returns the
calling pod's persisted `is_leader` flag from the unpruned registry
(`false` only when the pod is absent, via the error path of the global
wrapper), so it does not consequently report non-leadership. -/
theorem getLeader_empty_isLeader_flag :
    (∀ (now : GoTime) (pods : PodRegistry), cleanupDeadPods now pods = [] →
      (GetLeader now pods).1 = "") ∧
    (∀ (pods : PodRegistry) (selfId : String), lookupAssoc pods selfId = none →
      IsLeaderGlobal pods selfId = false) ∧
    (∀ (pods : PodRegistry) (selfId : String) (info : PodInfo),
      lookupAssoc pods selfId = some info →
      IsLeaderGlobal pods selfId = info.IsLeader) := by
  refine ⟨?_, ?_, ?_⟩
  · intro now pods h
    simp [GetLeader, h]
  · intro pods selfId h
    simp [IsLeaderGlobal, IsLeaderCheck, h]
  · intro pods selfId info h
    simp [IsLeaderGlobal, IsLeaderCheck, h]

/-- Witness for C10 at concrete inputs: a registry whose only pod went
stale 10 s ago yields an empty pruned set and leader `""`; a pod absent
from the registry is reported non-leader; a pod present with a persisted
`is_leader = true` flag is reported leader. -/
theorem getLeader_empty_isLeader_flag_witness :
    (GetLeader ⟨10, 0⟩ [("me", ⟨"me", ⟨0, 0⟩, ⟨0, 0⟩, "active", true⟩)]).1 = "" ∧
    IsLeaderGlobal [] "me" = false ∧
    IsLeaderGlobal [("me", ⟨"me", ⟨0, 0⟩, ⟨0, 0⟩, "active", true⟩)] "me" = true :=
  ⟨getLeader_empty_isLeader_flag.1 ⟨10, 0⟩
      [("me", ⟨"me", ⟨0, 0⟩, ⟨0, 0⟩, "active", true⟩)] (by decide),
   getLeader_empty_isLeader_flag.2.1 [] "me" (by decide),
   (getLeader_empty_isLeader_flag.2.2 [("me", ⟨"me", ⟨0, 0⟩, ⟨0, 0⟩, "active", true⟩)]
      "me" ⟨"me", ⟨0, 0⟩, ⟨0, 0⟩, "active", true⟩ (by decide)).trans rfl⟩

/-- Counterexample for C10 as stated: a registry whose only entry is the
calling pod, last seen 10 s ago with a persisted `is_leader = true` flag.
The pruned live set is empty and `GetLeader` returns the empty string,
yet the leadership check still reports that the calling pod IS the
leader — it reads the stale persisted flag instead of the computed
leader. -/
theorem isLeader_true_without_live_leader :
    cleanupDeadPods ⟨10, 0⟩ [("me", ⟨"me", ⟨0, 0⟩, ⟨0, 0⟩, "active", true⟩)] = [] ∧
    (GetLeader ⟨10, 0⟩ [("me", ⟨"me", ⟨0, 0⟩, ⟨0, 0⟩, "active", true⟩)]).1 = "" ∧
    IsLeaderGlobal [("me", ⟨"me", ⟨0, 0⟩, ⟨0, 0⟩, "active", true⟩)] "me" = true := by
  refine ⟨by decide, by decide, by decide⟩

/-! ### Executor (`Scheduler.ExecuteAssignedJobs`, `src/scheduler/scheduler.go`) -/

/-- The per-job lock key `schedulerx:job_lock:{job_id}`. -/
def lockKey (jobID : String) : String := "schedulerx:job_lock:" ++ jobID

namespace Scheduler

/-- One iteration of the executor loop over `jobID`:
`SETNX(lock, currentPodID, 10min)`; on failure skip; on success read the
job detail (an unreadable or undecodable record both surface as a failed
read), release-and-skip unless the job is assigned to `currentPodID` and
not already running or successful; otherwise persist `running` via
`StoreInRedis`, simulate the execution with a fixed sleep, persist
`success` via `StoreInRedis`, and release the lock.  Returns the new
state and the executed job id, if any. -/
def execJob (currentPodID : String) (st : RedisState) (jobID : String) :
    RedisState × Option String :=
  if (lookupAssoc st.locks (lockKey jobID)).isSome then
    (st, none)
  else
    let st1 : RedisState := { st with locks := setAssoc st.locks (lockKey jobID) currentPodID }
    match lookupAssoc st1.details jobID with
    | none => ({ st1 with locks := removeAssoc st1.locks (lockKey jobID) }, none)
    | some job =>
      if job.AssignedTo ≠ currentPodID ∨ job.Status = .running ∨ job.Status = .success then
        ({ st1 with locks := removeAssoc st1.locks (lockKey jobID) }, none)
      else
        let running : Job := { job with Status := JobStatus.running }
        let st2 := running.StoreInRedis st1
        let completed : Job := { running with Status := JobStatus.success }
        let st3 := completed.StoreInRedis st2
        ({ st3 with locks := removeAssoc st3.locks (lockKey jobID) }, some jobID)

/-- The executor's walk over the snapshot of the pending sorted set,
accumulating the ids of the jobs it executed. -/
def execLoop (currentPodID : String) :
    List String → RedisState × List String → RedisState × List String
  | [], acc => acc
  | jobID :: rest, acc =>
    let r := execJob currentPodID acc.1 jobID
    execLoop currentPodID rest
      (r.1, acc.2 ++ (match r.2 with | some j => [j] | none => []))

/-- `Scheduler.ExecuteAssignedJobs`, run by the pod whose own id is
`selfId`: the source sets `currentPodID := leader.GetLeader()` — the
cluster leader's id — and never consults the executing pod's own id
(`selfId` is deliberately unused, mirroring the source); it then walks
`ZRANGE scheduler:jobs 0 -1` executing each lockable job whose
`AssignedTo` equals `currentPodID`.  (`leader.GetLeader()` also rewrites
the `schedulerx:pods` key with refreshed flags; that key is disjoint from
the job keyspace modelled by `RedisState`.) -/
def ExecuteAssignedJobs (selfId : String) (now : GoTime) (registry : PodRegistry)
    (st : RedisState) : RedisState × List String :=
  let currentPodID := GetLeaderGlobal now registry
  execLoop currentPodID (st.jobSet.map Prod.fst) (st, [])

end Scheduler

/-- C2: evaluation of the executor at the failing input.  Registry: pod
`a` (started t = 0) is the leader, pod `b` (started t = 5) is a live
follower.  The job `echo_100` is assigned to `a` and its lock is free.
Pod `b` runs `ExecuteAssignedJobs`: because the source compares
`AssignedTo` against `leader.GetLeader()` (= "a") instead of the
executing pod's own id ("b"), pod `b` locks and executes the job even
though `AssignedTo ≠ "b"` — execution does not proceed only for the
current assignee. -/
theorem follower_executes_leader_job :
    GetLeaderGlobal ⟨1001, 0⟩
        [("a", ⟨"a", ⟨0, 0⟩, ⟨1000, 0⟩, "active", false⟩),
         ("b", ⟨"b", ⟨5, 0⟩, ⟨1000, 0⟩, "active", false⟩)] = "a" ∧
    (Scheduler.ExecuteAssignedJobs "b" ⟨1001, 0⟩
        [("a", ⟨"a", ⟨0, 0⟩, ⟨1000, 0⟩, "active", false⟩),
         ("b", ⟨"b", ⟨5, 0⟩, ⟨1000, 0⟩, "active", false⟩)]
        ⟨[("echo_100", 100)],
         [("echo_100",
           { ID := "echo_100", CommandID := "echo", Params := [],
             Status := .assigned, ScheduledAt := ⟨100, 0⟩, AssignedTo := "a" })],
         []⟩).2 = ["echo_100"] ∧
    (("a" : String) == "b") = false := by
  refine ⟨by decide, by decide, by decide⟩

/-- C3: evaluation of the executor at the failing input.  A single live
leader pod `a` executes its assigned job `ls_200`.  The source persists
the terminal `success` via `StoreInRedis` — whose pipeline `ZADD`s the
member back — instead of `UpdateInRedis`; the job therefore ends in
status `success` while still a member of the pending sorted set,
violating the invariant.  The last conjunct shows the removal that
`UpdateInRedis` (the function the `command` package provides for exactly
this transition) would have performed on the same final record. -/
theorem success_job_stays_in_pending_set :
    (lookupAssoc
        (Scheduler.ExecuteAssignedJobs "a" ⟨1001, 0⟩
          [("a", ⟨"a", ⟨0, 0⟩, ⟨1000, 0⟩, "active", false⟩)]
          ⟨[("ls_200", 200)],
           [("ls_200",
             { ID := "ls_200", CommandID := "ls", Params := ["."],
               Status := .assigned, ScheduledAt := ⟨200, 0⟩, AssignedTo := "a" })],
           []⟩).1.details "ls_200").map (fun j => j.Status) = some JobStatus.success ∧
    ((Scheduler.ExecuteAssignedJobs "a" ⟨1001, 0⟩
          [("a", ⟨"a", ⟨0, 0⟩, ⟨1000, 0⟩, "active", false⟩)]
          ⟨[("ls_200", 200)],
           [("ls_200",
             { ID := "ls_200", CommandID := "ls", Params := ["."],
               Status := .assigned, ScheduledAt := ⟨200, 0⟩, AssignedTo := "a" })],
           []⟩).1.jobSet.map Prod.fst).contains "ls_200" = true ∧
    ((Job.UpdateInRedis
        { ID := "ls_200", CommandID := "ls", Params := ["."],
          Status := .success, ScheduledAt := ⟨200, 0⟩, AssignedTo := "a" }
        ⟨[("ls_200", 200)], [], []⟩).jobSet.map Prod.fst).contains "ls_200" = false := by
  refine ⟨by decide, by decide, by decide⟩

/-! ### C7: execution errors -/

theorem execJob_details_no_failed (c : String) (st : RedisState) (jobID k : String)
    (h : (lookupAssoc (Scheduler.execJob c st jobID).1.details k).map (fun j => j.Status) =
      some JobStatus.failed) :
    (lookupAssoc st.details k).map (fun j => j.Status) = some JobStatus.failed := by
  unfold Scheduler.execJob at h
  by_cases hl : (lookupAssoc st.locks (lockKey jobID)).isSome
  · rw [if_pos hl] at h
    exact h
  · rw [if_neg hl] at h
    cases hd : lookupAssoc st.details jobID with
    | none =>
      simp only [hd] at h
      exact h
    | some job =>
      by_cases hskip : job.AssignedTo ≠ c ∨ job.Status = .running ∨ job.Status = .success
      · simp only [hd, if_pos hskip] at h
        exact h
      · simp only [hd, if_neg hskip, Job.StoreInRedis] at h
        by_cases hk : k = ({ job with Status := JobStatus.running } : Job).ID
        · rw [hk, lookupAssoc_setAssoc_self] at h
          simp at h
        · rw [lookupAssoc_setAssoc_ne _ _ _ _ hk, lookupAssoc_setAssoc_ne _ _ _ _ hk] at h
          exact h

theorem execLoop_details_no_failed (c : String) (jobs : List String)
    (acc : RedisState × List String) (k : String)
    (h : (lookupAssoc (Scheduler.execLoop c jobs acc).1.details k).map (fun j => j.Status) =
      some JobStatus.failed) :
    (lookupAssoc acc.1.details k).map (fun j => j.Status) = some JobStatus.failed := by
  induction jobs generalizing acc with
  | nil => exact h
  | cons jobID rest ih =>
    exact execJob_details_no_failed c acc.1 jobID k (ih _ h)

theorem contains_removeAssoc {α : Type} (l : List (String × α)) (k : String) :
    ((removeAssoc l k).map Prod.fst).contains k = false := by
  induction l with
  | nil => rfl
  | cons p rest ih =>
    simp only [removeAssoc] at ih ⊢
    rw [List.filter_cons]
    by_cases h : p.1 = k
    · simp [h, ih]
    · simp [h, ih, Ne.symm h]

/-- C7 (amended): the `command` package provides the failure transition —
`Job.Fail` records the error message verbatim and marks the job failed,
and `Job.UpdateInRedis` removes a failed job from the pending sorted
set — but the executor never exercises it: it does not invoke the
command's `Execute` at all (execution is simulated by a fixed sleep) and
unconditionally persists `success` for every job it runs, so no job ever
leaves the executor in `failed` state that was not already failed. -/
theorem executor_never_fails_jobs :
    (∀ (j : Job) (msg : String) (now' : GoTime),
      (j.Fail (some msg) now').Status = JobStatus.failed ∧
      (j.Fail (some msg) now').Error = msg) ∧
    (∀ (j : Job) (st : RedisState), j.Status = JobStatus.failed →
      ((j.UpdateInRedis st).jobSet.map Prod.fst).contains j.ID = false) ∧
    (∀ (selfId : String) (now : GoTime) (registry : PodRegistry) (st : RedisState)
      (k : String),
      (lookupAssoc (Scheduler.ExecuteAssignedJobs selfId now registry st).1.details k).map
          (fun j => j.Status) = some JobStatus.failed →
      (lookupAssoc st.details k).map (fun j => j.Status) = some JobStatus.failed) := by
  refine ⟨?_, ?_, ?_⟩
  · intro j msg now'
    exact ⟨rfl, rfl⟩
  · intro j st hj
    have hset : (j.UpdateInRedis st).jobSet = removeAssoc st.jobSet j.ID := by
      simp [Job.UpdateInRedis, hj]
    rw [hset]
    exact contains_removeAssoc st.jobSet j.ID
  · intro selfId now registry st k h
    exact execLoop_details_no_failed _ _ _ _ h

/-- Witness for C7's amended statement at concrete inputs: `Job.Fail`
captures the message `boom` verbatim; `UpdateInRedis` on a failed job
removes it from the pending set; and an executor tick over an empty
pending set leaves an already-failed record failed. -/
theorem executor_never_fails_jobs_witness :
    ((NewJob "bad" [] ⟨100, 0⟩).Fail (some "boom") ⟨101, 0⟩).Status = JobStatus.failed ∧
    ((NewJob "bad" [] ⟨100, 0⟩).Fail (some "boom") ⟨101, 0⟩).Error = "boom" ∧
    ((Job.UpdateInRedis
        { ID := "bad_100", CommandID := "bad", Params := [],
          Status := .failed, ScheduledAt := ⟨100, 0⟩ }
        ⟨[("bad_100", 100)], [], []⟩).jobSet.map Prod.fst).contains "bad_100" = false ∧
    (lookupAssoc
        (⟨[], [("f_1",
          { ID := "f_1", CommandID := "f", Params := [],
            Status := .failed, ScheduledAt := ⟨1, 0⟩ })], []⟩ : RedisState).details
        "f_1").map (fun j => j.Status) = some JobStatus.failed :=
  ⟨(executor_never_fails_jobs.1 (NewJob "bad" [] ⟨100, 0⟩) "boom" ⟨101, 0⟩).1,
   (executor_never_fails_jobs.1 (NewJob "bad" [] ⟨100, 0⟩) "boom" ⟨101, 0⟩).2,
   executor_never_fails_jobs.2.1
     { ID := "bad_100", CommandID := "bad", Params := [],
       Status := .failed, ScheduledAt := ⟨100, 0⟩ }
     ⟨[("bad_100", 100)], [], []⟩ rfl,
   executor_never_fails_jobs.2.2 "a" ⟨0, 0⟩ []
     (⟨[], [("f_1",
       { ID := "f_1", CommandID := "f", Params := [],
         Status := .failed, ScheduledAt := ⟨1, 0⟩ })], []⟩ : RedisState)
     "f_1" (by decide)⟩

/-- A registered command whose `Execute(params)` always returns an error
(commands are opaque `(id, cron, params, execute)` collaborators per the
spec; this one stands for any execution that fails). -/
def failingExecute : List String → Except String Unit :=
  fun _ => Except.error "boom"

/-- Counterexample for C7 as stated: the job `bad_100` belongs to a
command whose `Execute` returns the error `boom`, yet after the
executor's tick the job is in status `success` with an empty `Error`
field and is still a member of the pending sorted set: the executor
never invokes `Execute`, never calls `Job.Fail`, and never removes the
job, so the claimed failed transition cannot happen. -/
theorem failing_command_job_ends_success :
    failingExecute ["x"] = Except.error "boom" ∧
    (lookupAssoc
        (Scheduler.ExecuteAssignedJobs "a" ⟨1001, 0⟩
          [("a", ⟨"a", ⟨0, 0⟩, ⟨1000, 0⟩, "active", false⟩)]
          ⟨[("bad_100", 100)],
           [("bad_100",
             { ID := "bad_100", CommandID := "bad", Params := ["x"],
               Status := .assigned, ScheduledAt := ⟨100, 0⟩, AssignedTo := "a" })],
           []⟩).1.details "bad_100").map (fun j => j.Status) = some JobStatus.success ∧
    (lookupAssoc
        (Scheduler.ExecuteAssignedJobs "a" ⟨1001, 0⟩
          [("a", ⟨"a", ⟨0, 0⟩, ⟨1000, 0⟩, "active", false⟩)]
          ⟨[("bad_100", 100)],
           [("bad_100",
             { ID := "bad_100", CommandID := "bad", Params := ["x"],
               Status := .assigned, ScheduledAt := ⟨100, 0⟩, AssignedTo := "a" })],
           []⟩).1.details "bad_100").map (fun j => j.Error) = some "" ∧
    ((Scheduler.ExecuteAssignedJobs "a" ⟨1001, 0⟩
          [("a", ⟨"a", ⟨0, 0⟩, ⟨1000, 0⟩, "active", false⟩)]
          ⟨[("bad_100", 100)],
           [("bad_100",
             { ID := "bad_100", CommandID := "bad", Params := ["x"],
               Status := .assigned, ScheduledAt := ⟨100, 0⟩, AssignedTo := "a" })],
           []⟩).1.jobSet.map Prod.fst).contains "bad_100" = true := by
  refine ⟨rfl, by decide, by decide, by decide⟩

/-! ### Assigner (`Assignment.AssignJobs` of `src/assignment/assignment.go`
and `Scheduler.AssignJobs` of `src/scheduler/scheduler.go`) -/

/-- Detail-record coherence: every stored record's `ID` field equals the
key it is stored under (`scheduler:job:{id}` always holds the job with
that id; every writer stores a record under its own `ID`). -/
def detailsWF (st : RedisState) : Bool :=
  st.details.all (fun p => p.2.ID == p.1)

theorem allWF_lookup {l : List (String × Job)} {k : String} {j : Job}
    (hwf : l.all (fun p => p.2.ID == p.1) = true) (h : lookupAssoc l k = some j) :
    j.ID = k := by
  induction l with
  | nil => cases h
  | cons p rest ih =>
    rw [List.all_cons, Bool.and_eq_true] at hwf
    by_cases hp : p.1 = k
    · rw [lookupAssoc, if_pos hp] at h
      cases h
      rw [← hp]
      exact beq_iff_eq.mp hwf.1
    · rw [lookupAssoc, if_neg hp] at h
      exact ih hwf.2 h

theorem setAssoc_all {α : Type} (P : String × α → Bool) (l : List (String × α))
    (k : String) (v : α) (hl : l.all P = true) (hv : P (k, v) = true) :
    (setAssoc l k v).all P = true := by
  induction l with
  | nil => simpa [setAssoc] using hv
  | cons p rest ih =>
    rw [List.all_cons, Bool.and_eq_true] at hl
    by_cases hp : p.1 = k
    · simp [setAssoc, hp, hv, hl.2]
    · simp [setAssoc, hp, hl.1, ih hl.2]

theorem detailsWF_store (j : Job) (st : RedisState) (h : detailsWF st = true) :
    detailsWF (j.StoreInRedis st) = true := by
  simp only [detailsWF, Job.StoreInRedis]
  exact setAssoc_all _ st.details j.ID j h (by simp)

theorem detailsWF_lookup (st : RedisState) (k : String) (j : Job)
    (hwf : detailsWF st = true) (h : lookupAssoc st.details k = some j) : j.ID = k :=
  allWF_lookup hwf h

theorem getD_mem_of_lt {l : List String} {m : Nat} (h : m < l.length) (d : String) :
    l.getD m d ∈ l := by
  induction l generalizing m with
  | nil => simp at h
  | cons a t ih =>
    cases m with
    | zero => simp
    | succ m' =>
      simp only [List.getD_cons_succ, List.mem_cons]
      exact Or.inr (ih (by simpa using h) )

namespace Assignment

/-- One iteration of `assignment.Manager.AssignJobs` at batch index `i`
over member `jobID`: read the detail (an unreadable or undecodable
record is skipped), skip when the job is already assigned (`AssignedTo`
non-empty) or running, else persist it assigned to
`pods[i mod len(pods)]` with status `assigned`. -/
def assignStep (pods : List String) (i : Nat) (jobID : String) (st : RedisState) :
    RedisState :=
  let podID := pods.getD (i % pods.length) ""
  match lookupAssoc st.details jobID with
  | none => st
  | some job =>
    if job.AssignedTo ≠ "" ∨ job.Status = .running then st
    else ({ job with AssignedTo := podID, Status := JobStatus.assigned }).StoreInRedis st

/-- The `for i, jobID := range jobs` walk: `i` is the index in the fetched
batch, counting skipped jobs too. -/
def assignLoop (pods : List String) : Nat → List String → RedisState → RedisState
  | _, [], st => st
  | i, jobID :: rest, st => assignLoop pods (i + 1) rest (assignStep pods i jobID st)

/-- `assignment.Manager.AssignJobs`: error when no pod is available, else
walk `ZRANGE scheduler:jobs 0 jobCount-1` (with `jobCount` = configured
`NextJobCount`, defaulting to 3 when non-positive) assigning round-robin
by batch index. -/
def AssignJobs (nextJobCount : Int) (pods : List String) (st : RedisState) :
    Except String RedisState :=
  if pods.isEmpty then Except.error "no pods available for job assignment"
  else
    let jobCount := if nextJobCount ≤ 0 then 3 else nextJobCount
    let jobs := (st.jobSet.map Prod.fst).take jobCount.toNat
    Except.ok (assignLoop pods 0 jobs st)

theorem assignStep_wf (pods : List String) (i : Nat) (jobID : String) (st : RedisState)
    (h : detailsWF st = true) : detailsWF (assignStep pods i jobID st) = true := by
  unfold assignStep
  cases hd : lookupAssoc st.details jobID with
  | none => exact h
  | some job =>
    by_cases hskip : job.AssignedTo ≠ "" ∨ job.Status = .running
    · simpa [hskip] using h
    · simpa [hskip] using detailsWF_store _ st h

theorem assignStep_preserve (pods : List String) (i : Nat) (jobID k : String)
    (st : RedisState) (hwf : detailsWF st = true) (hk : k ≠ jobID) :
    lookupAssoc (assignStep pods i jobID st).details k = lookupAssoc st.details k := by
  unfold assignStep
  cases hd : lookupAssoc st.details jobID with
  | none => rfl
  | some job =>
    by_cases hskip : job.AssignedTo ≠ "" ∨ job.Status = .running
    · simp [hskip]
    · have hid : job.ID = jobID := detailsWF_lookup st jobID job hwf hd
      simp only [if_neg hskip, Job.StoreInRedis]
      rw [lookupAssoc_setAssoc_ne _ _ _ _ (hid.symm ▸ hk)]

theorem assignLoop_wf (pods : List String) (jobs : List String) (i : Nat) (st : RedisState)
    (h : detailsWF st = true) : detailsWF (assignLoop pods i jobs st) = true := by
  induction jobs generalizing i st with
  | nil => exact h
  | cons j rest ih => exact ih _ _ (assignStep_wf pods i j st h)

theorem assignLoop_preserve (pods : List String) (jobs : List String) (i : Nat)
    (st : RedisState) (k : String) (hwf : detailsWF st = true) (hk : k ∉ jobs) :
    lookupAssoc (assignLoop pods i jobs st).details k = lookupAssoc st.details k := by
  induction jobs generalizing i st with
  | nil => rfl
  | cons j rest ih =>
    have hkj : k ≠ j := fun h => hk (h ▸ List.mem_cons_self j rest)
    have hkrest : k ∉ rest := fun h => hk (List.mem_cons_of_mem j h)
    rw [assignLoop, ih _ _ (assignStep_wf pods i j st hwf) hkrest,
      assignStep_preserve pods i j k st hwf hkj]

theorem assignLoop_get (pods : List String) (jobs : List String) (st : RedisState)
    (i0 n : Nat) (jobID : String) (job : Job)
    (hwf : detailsWF st = true) (hnd : jobs.Nodup)
    (hget : jobs.get? n = some jobID)
    (hdet : lookupAssoc st.details jobID = some job)
    (hun : job.AssignedTo = "") (hnr : job.Status ≠ JobStatus.running) :
    lookupAssoc (assignLoop pods i0 jobs st).details jobID =
      some { job with AssignedTo := pods.getD ((i0 + n) % pods.length) "",
                      Status := JobStatus.assigned } := by
  induction jobs generalizing st i0 n with
  | nil => cases hget
  | cons j0 rest ih =>
    rcases List.nodup_cons.mp hnd with ⟨hj0, hndr⟩
    cases n with
    | zero =>
      have hj : j0 = jobID := by simpa using hget
      subst hj
      have hstep : assignStep pods i0 j0 st =
          ({ job with AssignedTo := pods.getD (i0 % pods.length) "",
                      Status := JobStatus.assigned } : Job).StoreInRedis st := by
        simp only [assignStep, hdet]
        rw [if_neg (by simp [hun, hnr])]
      have hid : job.ID = j0 := detailsWF_lookup st j0 job hwf hdet
      have hlook : lookupAssoc (assignStep pods i0 j0 st).details j0 =
          some { job with AssignedTo := pods.getD (i0 % pods.length) "",
                          Status := JobStatus.assigned } := by
        rw [hstep]
        simp only [Job.StoreInRedis]
        rw [← hid, lookupAssoc_setAssoc_self]
      have hunf : assignLoop pods i0 (j0 :: rest) st =
          assignLoop pods (i0 + 1) rest (assignStep pods i0 j0 st) := rfl
      rw [hunf, assignLoop_preserve pods rest (i0 + 1) _ j0
        (assignStep_wf pods i0 j0 st hwf) hj0, hlook]
      simp
    | succ m =>
      have hget' : rest.get? m = some jobID := by simpa using hget
      have hmem : jobID ∈ rest := List.get?_mem hget'
      have hkj : jobID ≠ j0 := fun h => hj0 (h ▸ hmem)
      have hdet' : lookupAssoc (assignStep pods i0 j0 st).details jobID = some job := by
        rw [assignStep_preserve pods i0 j0 jobID st hwf hkj, hdet]
      have hunf : assignLoop pods i0 (j0 :: rest) st =
          assignLoop pods (i0 + 1) rest (assignStep pods i0 j0 st) := rfl
      rw [hunf]
      have hrec := ih (assignStep pods i0 j0 st) (i0 + 1) m
        (assignStep_wf pods i0 j0 st hwf) hndr hget' hdet'
      rw [hrec]
      have harith : i0 + 1 + m = i0 + (m + 1) := by omega
      rw [harith]

end Assignment

/-- C9 (amended): in `assignment.Manager.AssignJobs` over a non-empty pod
list, the job at zero-based position `n` of the FETCHED batch (the
`ZRANGE` prefix of `NextJobCount` members) that passes the skip checks
(readable detail, `AssignedTo` empty, not running) is assigned to
`pods[n mod |pods|]` — the round-robin index counts every batch position,
skipped jobs included, not only the jobs assigned this tick. -/
theorem round_robin_batch_index (nextJobCount : Int) (pods : List String) (st : RedisState)
    (n : Nat) (jobID : String) (job : Job)
    (hp : pods ≠ [])
    (hwf : detailsWF st = true)
    (hnd : ((st.jobSet.map Prod.fst).take
      (if nextJobCount ≤ 0 then 3 else nextJobCount).toNat).Nodup)
    (hget : ((st.jobSet.map Prod.fst).take
      (if nextJobCount ≤ 0 then 3 else nextJobCount).toNat).get? n = some jobID)
    (hdet : lookupAssoc st.details jobID = some job)
    (hun : job.AssignedTo = "")
    (hnr : job.Status ≠ JobStatus.running) :
    (Assignment.AssignJobs nextJobCount pods st).toOption.bind
        (fun st' => lookupAssoc st'.details jobID) =
      some { job with AssignedTo := pods.getD (n % pods.length) "",
                      Status := JobStatus.assigned } ∧
    pods.getD (n % pods.length) "" ∈ pods := by
  have hpe : pods.isEmpty = false := by
    cases pods with
    | nil => exact absurd rfl hp
    | cons a t => rfl
  constructor
  · simp only [Assignment.AssignJobs, hpe, Bool.false_eq_true, if_false, Except.toOption,
      Option.bind_some, Option.some_bind]
    have := Assignment.assignLoop_get pods _ st 0 n jobID job hwf hnd hget hdet hun hnr
    simpa using this
  · have hlen : 0 < pods.length := List.length_pos.mpr hp
    exact getD_mem_of_lt (Nat.mod_lt n hlen) ""

/-- Witness for C9's amended statement at a concrete input: batch
`[j0, j1]` where `j0` is already assigned (skipped) and `j1` is
unassigned; with pods `[a, b]`, `j1` sits at batch index 1 and is
assigned to `pods[1 mod 2] = b`. -/
theorem round_robin_batch_index_witness :
    (Assignment.AssignJobs 1000 ["a", "b"]
        ⟨[("j0", 0), ("j1", 1)],
         [("j0",
           { ID := "j0", CommandID := "c", Params := [],
             Status := .assigned, ScheduledAt := ⟨0, 0⟩, AssignedTo := "a" }),
          ("j1",
           { ID := "j1", CommandID := "c", Params := [],
             Status := .scheduled, ScheduledAt := ⟨1, 0⟩ })],
         []⟩).toOption.bind (fun st' => lookupAssoc st'.details "j1") =
      some { ID := "j1", CommandID := "c", Params := [],
             Status := JobStatus.assigned, ScheduledAt := ⟨1, 0⟩,
             AssignedTo := ["a", "b"].getD (1 % (["a", "b"] : List String).length) "" } :=
  (round_robin_batch_index 1000 ["a", "b"]
    ⟨[("j0", 0), ("j1", 1)],
     [("j0",
       { ID := "j0", CommandID := "c", Params := [],
         Status := .assigned, ScheduledAt := ⟨0, 0⟩, AssignedTo := "a" }),
      ("j1",
       { ID := "j1", CommandID := "c", Params := [],
         Status := .scheduled, ScheduledAt := ⟨1, 0⟩ })],
     []⟩ 1 "j1"
    { ID := "j1", CommandID := "c", Params := [],
      Status := .scheduled, ScheduledAt := ⟨1, 0⟩ }
    (by decide) (by decide) (by decide) (by decide) (by decide) (by decide)
    (by decide)).1

/-- Counterexample for C9 as stated: in the batch `[j0, j1]` with pods
`[a, b]`, `j0` is skipped (already assigned) and `j1` is the 0th job
actually assigned this tick, so the claim predicts `pods[0] = a`; the
code instead uses the batch index 1 and assigns `j1` to `b`. -/
theorem round_robin_skipped_jobs_still_count :
    (Assignment.AssignJobs 1000 ["a", "b"]
        ⟨[("j0", 0), ("j1", 1)],
         [("j0",
           { ID := "j0", CommandID := "c", Params := [],
             Status := .assigned, ScheduledAt := ⟨0, 0⟩, AssignedTo := "a" }),
          ("j1",
           { ID := "j1", CommandID := "c", Params := [],
             Status := .scheduled, ScheduledAt := ⟨1, 0⟩ })],
         []⟩).toOption.bind
        (fun st' => (lookupAssoc st'.details "j1").map (fun j => j.AssignedTo)) =
      some (some "b") ∧
    (("b" : String) == "a") = false := by
  refine ⟨by decide, by decide⟩

namespace Scheduler

/-- One iteration of `Scheduler.AssignJobs` at batch index `i` over member
`jobID`: skip on unreadable detail or `running` status; when `AssignedTo`
is set, skip if it names a pod in the `alivePods` set built from the
`pods` argument, and otherwise persist the cleared record
(`AssignedTo = ""`, `status = scheduled`) first — orphan reclamation —
before falling through; finally persist the assignment to
`pods[i mod len(pods)]`.  The second component is the list of records the
iteration persisted via `StoreInRedis`, in order. -/
def assignStepS (pods : List String) (i : Nat) (jobID : String) (st : RedisState) :
    RedisState × List Job :=
  let podID := pods.getD (i % pods.length) ""
  match lookupAssoc st.details jobID with
  | none => (st, [])
  | some job =>
    if job.Status = .running then (st, [])
    else if job.AssignedTo = "" then
      let assigned : Job := { job with AssignedTo := podID, Status := JobStatus.assigned }
      (assigned.StoreInRedis st, [assigned])
    else if pods.contains job.AssignedTo then (st, [])
    else
      let cleared : Job := { job with AssignedTo := "", Status := JobStatus.scheduled }
      let st1 := cleared.StoreInRedis st
      let assigned : Job := { cleared with AssignedTo := podID, Status := JobStatus.assigned }
      (assigned.StoreInRedis st1, [cleared, assigned])

/-- The `for i, jobID := range jobs` walk of `Scheduler.AssignJobs`,
accumulating the persisted records. -/
def assignLoopS (pods : List String) :
    Nat → List String → RedisState × List Job → RedisState × List Job
  | _, [], acc => acc
  | i, jobID :: rest, acc =>
    let r := assignStepS pods i jobID acc.1
    assignLoopS pods (i + 1) rest (r.1, acc.2 ++ r.2)

/-- `Scheduler.AssignJobs`: error when no pod is available, else walk the
`ZRANGE scheduler:jobs 0 jobCount-1` batch.  Returns the final state and
the persisted-record trace. -/
def AssignJobs (nextJobCount : Int) (pods : List String) (st : RedisState) :
    Except String (RedisState × List Job) :=
  if pods.isEmpty then Except.error "no pods available for job assignment"
  else
    let jobCount := if nextJobCount ≤ 0 then 3 else nextJobCount
    let jobs := (st.jobSet.map Prod.fst).take jobCount.toNat
    Except.ok (assignLoopS pods 0 jobs (st, []))

theorem assignStepS_none (pods : List String) (i : Nat) (jobID : String) (st : RedisState)
    (hd : lookupAssoc st.details jobID = none) : assignStepS pods i jobID st = (st, []) := by
  simp only [assignStepS, hd]

theorem assignStepS_running (pods : List String) (i : Nat) (jobID : String)
    (st : RedisState) (job : Job) (hd : lookupAssoc st.details jobID = some job)
    (h1 : job.Status = .running) : assignStepS pods i jobID st = (st, []) := by
  simp only [assignStepS, hd]
  rw [if_pos h1]

theorem assignStepS_fresh (pods : List String) (i : Nat) (jobID : String)
    (st : RedisState) (job : Job) (hd : lookupAssoc st.details jobID = some job)
    (h1 : job.Status ≠ .running) (hemp : job.AssignedTo = "") :
    assignStepS pods i jobID st =
      (({ job with AssignedTo := pods.getD (i % pods.length) "", Status := JobStatus.assigned } : Job).StoreInRedis st, [{ job with AssignedTo := pods.getD (i % pods.length) "", Status := JobStatus.assigned }]) := by
  simp only [assignStepS, hd]
  rw [if_neg h1, if_pos hemp]

theorem assignStepS_alive (pods : List String) (i : Nat) (jobID : String)
    (st : RedisState) (job : Job) (hd : lookupAssoc st.details jobID = some job)
    (h1 : job.Status ≠ .running) (hemp : job.AssignedTo ≠ "")
    (hal : pods.contains job.AssignedTo = true) :
    assignStepS pods i jobID st = (st, []) := by
  simp only [assignStepS, hd]
  rw [if_neg h1, if_neg hemp, if_pos hal]

theorem assignStepS_orphan_eq (pods : List String) (i : Nat) (jobID : String)
    (st : RedisState) (job : Job) (hd : lookupAssoc st.details jobID = some job)
    (h1 : job.Status ≠ .running) (hemp : job.AssignedTo ≠ "")
    (hal : pods.contains job.AssignedTo = false) :
    assignStepS pods i jobID st =
      (({ job with AssignedTo := pods.getD (i % pods.length) "", Status := JobStatus.assigned } : Job).StoreInRedis (({ job with AssignedTo := "", Status := JobStatus.scheduled } : Job).StoreInRedis st), [{ job with AssignedTo := "", Status := JobStatus.scheduled }, { job with AssignedTo := pods.getD (i % pods.length) "", Status := JobStatus.assigned }]) := by
  simp only [assignStepS, hd]
  rw [if_neg h1, if_neg hemp, if_neg (by simpa using hal)]

theorem assignStepS_wf (pods : List String) (i : Nat) (jobID : String) (st : RedisState)
    (h : detailsWF st = true) : detailsWF (assignStepS pods i jobID st).1 = true := by
  rcases hd : lookupAssoc st.details jobID with _ | job
  · rw [assignStepS_none pods i jobID st hd]
    exact h
  · by_cases h1 : job.Status = .running
    · rw [assignStepS_running pods i jobID st job hd h1]
      exact h
    · by_cases hemp : job.AssignedTo = ""
      · rw [assignStepS_fresh pods i jobID st job hd h1 hemp]
        exact detailsWF_store _ st h
      · by_cases hal : pods.contains job.AssignedTo
        · rw [assignStepS_alive pods i jobID st job hd h1 hemp hal]
          exact h
        · rw [assignStepS_orphan_eq pods i jobID st job hd h1 hemp (by simpa using hal)]
          exact detailsWF_store _ _ (detailsWF_store _ st h)

theorem assignStepS_preserve (pods : List String) (i : Nat) (jobID k : String)
    (st : RedisState) (hwf : detailsWF st = true) (hk : k ≠ jobID) :
    lookupAssoc (assignStepS pods i jobID st).1.details k = lookupAssoc st.details k := by
  rcases hd : lookupAssoc st.details jobID with _ | job
  · rw [assignStepS_none pods i jobID st hd]
  · have hid : job.ID = jobID := detailsWF_lookup st jobID job hwf hd
    by_cases h1 : job.Status = .running
    · rw [assignStepS_running pods i jobID st job hd h1]
    · by_cases hemp : job.AssignedTo = ""
      · rw [assignStepS_fresh pods i jobID st job hd h1 hemp]
        simp only [Job.StoreInRedis]
        rw [lookupAssoc_setAssoc_ne _ _ _ _ (hid.symm ▸ hk)]
      · by_cases hal : pods.contains job.AssignedTo
        · rw [assignStepS_alive pods i jobID st job hd h1 hemp hal]
        · rw [assignStepS_orphan_eq pods i jobID st job hd h1 hemp (by simpa using hal)]
          simp only [Job.StoreInRedis]
          rw [lookupAssoc_setAssoc_ne _ _ _ _ (hid.symm ▸ hk),
            lookupAssoc_setAssoc_ne _ _ _ _ (hid.symm ▸ hk)]

theorem assignLoopS_wf (pods : List String) (jobs : List String) (i : Nat)
    (acc : RedisState × List Job) (h : detailsWF acc.1 = true) :
    detailsWF (assignLoopS pods i jobs acc).1 = true := by
  induction jobs generalizing i acc with
  | nil => exact h
  | cons j rest ih => exact ih _ _ (assignStepS_wf pods i j acc.1 h)

theorem assignLoopS_preserve (pods : List String) (jobs : List String) (i : Nat)
    (acc : RedisState × List Job) (k : String) (hwf : detailsWF acc.1 = true)
    (hk : k ∉ jobs) :
    lookupAssoc (assignLoopS pods i jobs acc).1.details k = lookupAssoc acc.1.details k := by
  induction jobs generalizing i acc with
  | nil => rfl
  | cons j rest ih =>
    have hkj : k ≠ j := fun h => hk (h ▸ List.mem_cons_self j rest)
    have hkrest : k ∉ rest := fun h => hk (List.mem_cons_of_mem j h)
    have hunf : assignLoopS pods i (j :: rest) acc =
        assignLoopS pods (i + 1) rest
          ((assignStepS pods i j acc.1).1, acc.2 ++ (assignStepS pods i j acc.1).2) := rfl
    rw [hunf]
    exact (ih (i + 1) ((assignStepS pods i j acc.1).1, acc.2 ++ (assignStepS pods i j acc.1).2)
      (assignStepS_wf pods i j acc.1 hwf) hkrest).trans
      (assignStepS_preserve pods i j k acc.1 hwf hkj)

theorem assignLoopS_writes_mono (pods : List String) (jobs : List String) (i : Nat)
    (acc : RedisState × List Job) (w : Job) (h : w ∈ acc.2) :
    w ∈ (assignLoopS pods i jobs acc).2 := by
  induction jobs generalizing i acc with
  | nil => exact h
  | cons j rest ih =>
    exact ih _ _ (List.mem_append_left _ h)

theorem assignLoopS_orphan (pods : List String) (jobs : List String)
    (st : RedisState) (ws : List Job) (i0 n : Nat) (jobID : String) (job : Job)
    (hwf : detailsWF st = true) (hnd : jobs.Nodup)
    (hget : jobs.get? n = some jobID)
    (hdet : lookupAssoc st.details jobID = some job)
    (hdead : pods.contains job.AssignedTo = false)
    (has : job.AssignedTo ≠ "")
    (hnr : job.Status ≠ JobStatus.running) :
    lookupAssoc (assignLoopS pods i0 jobs (st, ws)).1.details jobID =
      some { job with AssignedTo := pods.getD ((i0 + n) % pods.length) "",
                      Status := JobStatus.assigned } ∧
    ({ job with AssignedTo := "", Status := JobStatus.scheduled } : Job) ∈
      (assignLoopS pods i0 jobs (st, ws)).2 := by
  induction jobs generalizing st ws i0 n with
  | nil => cases hget
  | cons j0 rest ih =>
    rcases List.nodup_cons.mp hnd with ⟨hj0, hndr⟩
    cases n with
    | zero =>
      have hj : j0 = jobID := by simpa using hget
      subst hj
      have hid : job.ID = j0 := detailsWF_lookup st j0 job hwf hdet
      have hstep := assignStepS_orphan_eq pods i0 j0 st job hdet hnr has hdead
      have hlook : lookupAssoc (assignStepS pods i0 j0 st).1.details j0 =
          some { job with AssignedTo := pods.getD (i0 % pods.length) "",
                          Status := JobStatus.assigned } := by
        rw [hstep]
        simp only [Job.StoreInRedis]
        rw [← hid, lookupAssoc_setAssoc_self]
      have hunf : assignLoopS pods i0 (j0 :: rest) (st, ws) =
          assignLoopS pods (i0 + 1) rest
            ((assignStepS pods i0 j0 st).1, ws ++ (assignStepS pods i0 j0 st).2) := rfl
      constructor
      · rw [hunf]
        rw [assignLoopS_preserve pods rest (i0 + 1)
          ((assignStepS pods i0 j0 st).1, ws ++ (assignStepS pods i0 j0 st).2) j0
          (assignStepS_wf pods i0 j0 st hwf) hj0]
        rw [show ((assignStepS pods i0 j0 st).1, ws ++ (assignStepS pods i0 j0 st).2).1 = (assignStepS pods i0 j0 st).1 from rfl]
        rw [hlook]
        simp
      · rw [hunf]
        apply assignLoopS_writes_mono
        rw [show ((assignStepS pods i0 j0 st).1, ws ++ (assignStepS pods i0 j0 st).2).2 = ws ++ (assignStepS pods i0 j0 st).2 from rfl]
        rw [hstep]
        simp
    | succ m =>
      have hget2 : rest.get? m = some jobID := by simpa using hget
      have hmem : jobID ∈ rest := List.get?_mem hget2
      have hkj : jobID ≠ j0 := fun h => hj0 (h ▸ hmem)
      have hdet2 : lookupAssoc (assignStepS pods i0 j0 st).1.details jobID = some job := by
        rw [assignStepS_preserve pods i0 j0 jobID st hwf hkj, hdet]
      have hunf : assignLoopS pods i0 (j0 :: rest) (st, ws) =
          assignLoopS pods (i0 + 1) rest
            ((assignStepS pods i0 j0 st).1, ws ++ (assignStepS pods i0 j0 st).2) := rfl
      rw [hunf]
      have hrec := ih (assignStepS pods i0 j0 st).1 (ws ++ (assignStepS pods i0 j0 st).2)
        (i0 + 1) m (assignStepS_wf pods i0 j0 st hwf) hndr hget2 hdet2
      have harith : i0 + 1 + m = i0 + (m + 1) := by omega
      rw [harith] at hrec
      exact hrec

end Scheduler

/-- C5 (amended): in `Scheduler.AssignJobs` over a non-empty pod list,
every job of the considered batch whose detail is readable, whose status
is not `running`, and whose `AssignedTo` names a pod absent from the
live pod list is reclaimed in that same tick: the tick persists the
cleared record (`AssignedTo = ""`, `status = scheduled`) and then
reassigns the job to the live pod `pods[n mod |pods|]` (`n` its batch
index) with status `assigned`.  (A `running` job assigned to a dead pod
is NOT reclaimed — the running-status skip comes first.) -/
theorem orphan_reclaimed_same_tick (nextJobCount : Int) (pods : List String)
    (st : RedisState) (n : Nat) (jobID : String) (job : Job)
    (hp : pods ≠ [])
    (hwf : detailsWF st = true)
    (hnd : ((st.jobSet.map Prod.fst).take
      (if nextJobCount ≤ 0 then 3 else nextJobCount).toNat).Nodup)
    (hget : ((st.jobSet.map Prod.fst).take
      (if nextJobCount ≤ 0 then 3 else nextJobCount).toNat).get? n = some jobID)
    (hdet : lookupAssoc st.details jobID = some job)
    (hdead : pods.contains job.AssignedTo = false)
    (has : job.AssignedTo ≠ "")
    (hnr : job.Status ≠ JobStatus.running) :
    ∃ (st' : RedisState) (ws : List Job),
      Scheduler.AssignJobs nextJobCount pods st = Except.ok (st', ws) ∧
      lookupAssoc st'.details jobID =
        some { job with AssignedTo := pods.getD (n % pods.length) "",
                        Status := JobStatus.assigned } ∧
      ({ job with AssignedTo := "", Status := JobStatus.scheduled } : Job) ∈ ws ∧
      pods.getD (n % pods.length) "" ∈ pods := by
  have hpe : pods.isEmpty = false := by
    cases pods with
    | nil => exact absurd rfl hp
    | cons a t => rfl
  have hmain := Scheduler.assignLoopS_orphan pods _ st [] 0 n jobID job
    hwf hnd hget hdet hdead has hnr
  refine ⟨(Scheduler.assignLoopS pods 0 ((st.jobSet.map Prod.fst).take
      (if nextJobCount ≤ 0 then 3 else nextJobCount).toNat) (st, [])).1,
    (Scheduler.assignLoopS pods 0 ((st.jobSet.map Prod.fst).take
      (if nextJobCount ≤ 0 then 3 else nextJobCount).toNat) (st, [])).2, ?_, ?_, ?_, ?_⟩
  · simp only [Scheduler.AssignJobs, hpe, Bool.false_eq_true, if_false]
  · simpa using hmain.1
  · exact hmain.2
  · exact getD_mem_of_lt (Nat.mod_lt n (List.length_pos.mpr hp)) ""

/-- Witness for C5's amended statement at a concrete input: the single
batch job `j0` is assigned to the dead pod `x` (absent from the live
list `[a, b]`); the tick persists the cleared scheduled record and
reassigns `j0` to `pods[0] = a`. -/
theorem orphan_reclaimed_same_tick_witness :
    ∃ (st' : RedisState) (ws : List Job),
      Scheduler.AssignJobs 1000 ["a", "b"]
          ⟨[("j0", 0)],
           [("j0",
             { ID := "j0", CommandID := "c", Params := [],
               Status := .assigned, ScheduledAt := ⟨0, 0⟩, AssignedTo := "x" })],
           []⟩ = Except.ok (st', ws) ∧
      lookupAssoc st'.details "j0" =
        some { ID := "j0", CommandID := "c", Params := [],
               Status := JobStatus.assigned, ScheduledAt := ⟨0, 0⟩,
               AssignedTo := ["a", "b"].getD (0 % (["a", "b"] : List String).length) "" } ∧
      ({ ID := "j0", CommandID := "c", Params := [],
         Status := JobStatus.scheduled, ScheduledAt := ⟨0, 0⟩,
         AssignedTo := "" } : Job) ∈ ws ∧
      ["a", "b"].getD (0 % (["a", "b"] : List String).length) "" ∈ ["a", "b"] :=
  orphan_reclaimed_same_tick 1000 ["a", "b"]
    ⟨[("j0", 0)],
     [("j0",
       { ID := "j0", CommandID := "c", Params := [],
         Status := .assigned, ScheduledAt := ⟨0, 0⟩, AssignedTo := "x" })],
     []⟩ 0 "j0"
    { ID := "j0", CommandID := "c", Params := [],
      Status := .assigned, ScheduledAt := ⟨0, 0⟩, AssignedTo := "x" }
    (by decide) (by decide) (by decide) (by decide) (by decide) (by decide)
    (by decide) (by decide)

/-- Counterexample for C5 as stated: the batch job `r0` is in status
`running` and assigned to the dead pod `x` (absent from the live list
`[a]`), yet the tick leaves it untouched — still assigned to `x`, still
`running` — because the running-status skip precedes the dead-pod check;
the claim's universal "every job ... whose assigned_to names a dead pod
is cleared and reassigned" fails on it. -/
theorem running_orphan_not_reclaimed :
    (Scheduler.AssignJobs 1000 ["a"]
        ⟨[("r0", 0)],
         [("r0",
           { ID := "r0", CommandID := "c", Params := [],
             Status := .running, ScheduledAt := ⟨0, 0⟩, AssignedTo := "x" })],
         []⟩).toOption.bind (fun r => lookupAssoc r.1.details "r0") =
      some { ID := "r0", CommandID := "c", Params := [],
             Status := JobStatus.running, ScheduledAt := ⟨0, 0⟩, AssignedTo := "x" } ∧
    (("x" : String) == "") = false ∧ (["a"] : List String).contains "x" = false := by
  refine ⟨by decide, by decide, by decide⟩
